import Mathlib

/-!
Verification of the memberjojo repository: a shallow embedding of its
CSV-ingestion engine (type inference, table import, row-level diff) and its
member-identity resolution cascade, with theorems checking the repository's
natural-language specification against the code.

Source files embedded:
- `src/memberjojo/mojo_common.py` (`MojoSkel._guess_type`,
  `MojoSkel._infer_columns_from_rows`, `MojoSkel._parse_row_values`,
  `MojoSkel.import_csv`)
- `src/memberjojo/mojo_member.py` (`Member._lookup_exact`,
  `Member._lookup_initial`, `Member.get_mojo_name`, `Member._add`)
- `src/memberjojo/mojo_loader.py` (`generate_sql_diff`)

Where the repository's tests exercise code that is absent from the source
tree (the `merge=` parameter of `import_csv`, and the fuzzy name matcher
`get_fuzz_name`), the missing operations are modelled from the spec; those
definitions carry a doc comment starting with `Modelled from the spec:`.
-/

namespace Memberjojo

/-! ### Python-style string and numeric-literal parsing

`_guess_type` and `_parse_row_values` rely on Python's `str.strip`,
`int(str)` and `float(str)`.  We embed the ASCII, locale-naive core of
those (the spec states parsing is locale-naive, `.` decimal separator
only): optional sign, digit runs with single underscores between digits,
and for `float` an optional fractional part, exponent, or the `inf`,
`infinity` and `nan` spellings. -/

/-- Drop leading whitespace characters. -/
def dropLeadingWs : List Char → List Char
  | [] => []
  | c :: rest => if c.isWhitespace then dropLeadingWs rest else c :: rest

/-- Python `str.strip()` with no argument: trim whitespace at both ends. -/
def pyStrip (s : String) : String :=
  String.mk ((dropLeadingWs ((dropLeadingWs s.toList).reverse)).reverse)

/-- Lower-case a string character-wise (basic latin, as SQL `LOWER` and the
source's lookups use it). -/
def strLower (s : String) : String := String.mk (s.toList.map Char.toLower)

/-- Upper-case a string character-wise (basic latin). -/
def strUpper (s : String) : String := String.mk (s.toList.map Char.toUpper)

/-- Whether `pre` is a prefix of `s` (SQL `LIKE pre%`). -/
def strStartsWith (s pre : String) : Bool :=
  s.toList.take pre.toList.length = pre.toList

/-- A Python digit run: non-empty digits, single underscores allowed only
between two digits.  Returns the digits with underscores removed, or `none`
when the run is malformed. -/
def pyDigits : List Char → Option (List Char)
  | [] => none
  | c :: rest =>
    if c.isDigit then
      match rest with
      | [] => some [c]
      | '_' :: r2 => (pyDigits r2).map (c :: ·)
      | c2 :: r2 => (pyDigits (c2 :: r2)).map (c :: ·)
    else none

/-- Numeric value of a list of decimal digits. -/
def digitsToNat (cs : List Char) : Nat :=
  cs.foldl (fun acc c => 10 * acc + (c.toNat - '0'.toNat)) 0

/-- Python `int(s)` on a string: strip whitespace, optional sign, digit run.
Returns the parsed integer or `none` when `int` would raise `ValueError`. -/
def pyInt? (s : String) : Option Int :=
  match (pyStrip s).toList with
  | '+' :: rest => (pyDigits rest).map (fun ds => (digitsToNat ds : Int))
  | '-' :: rest => (pyDigits rest).map (fun ds => -(digitsToNat ds : Int))
  | rest => (pyDigits rest).map (fun ds => (digitsToNat ds : Int))

/-- Result of Python `float(s)`: a finite rational (decimal floats are
modelled exactly as rationals), an infinity, or nan. -/
inductive PyFloat where
  | finite (q : ℚ)
  | inf
  | neginf
  | nan
  deriving DecidableEq, Repr

/-- Mantissa of a float literal: digits, optionally a dot with digits on at
least one side.  Returns (integer part, fraction digits value, fraction digit
count). -/
def pyMantissa? (cs : List Char) : Option (Nat × Nat × Nat) :=
  let ip := cs.takeWhile (· ≠ '.')
  let rest := cs.dropWhile (· ≠ '.')
  match rest with
  | [] => (pyDigits ip).map (fun ds => (digitsToNat ds, 0, 0))
  | _ :: fr =>
    if ip.isEmpty then
      (pyDigits fr).map (fun ds => (0, digitsToNat ds, ds.length))
    else if fr.isEmpty then
      (pyDigits ip).map (fun ds => (digitsToNat ds, 0, 0))
    else
      match pyDigits ip, pyDigits fr with
      | some ids, some fds => some (digitsToNat ids, digitsToNat fds, fds.length)
      | _, _ => none

/-- Exponent of a float literal: optional sign then a digit run. -/
def pyExponent? (cs : List Char) : Option Int :=
  match cs with
  | '+' :: rest => (pyDigits rest).map (fun ds => (digitsToNat ds : Int))
  | '-' :: rest => (pyDigits rest).map (fun ds => -(digitsToNat ds : Int))
  | rest => (pyDigits rest).map (fun ds => (digitsToNat ds : Int))

/-- Assemble a finite float value from sign, mantissa and exponent. -/
def pyFloatOfParts (neg : Bool) (m : Nat × Nat × Nat) (e : Int) : ℚ :=
  let mant : ℚ := (m.1 : ℚ) + (m.2.1 : ℚ) / ((10 : ℚ) ^ m.2.2)
  let scaled : ℚ :=
    if 0 ≤ e then mant * (10 : ℚ) ^ e.toNat else mant / (10 : ℚ) ^ (-e).toNat
  if neg then -scaled else scaled

/-- Python `float(s)`: strip, optional sign, then `inf`/`infinity`/`nan`
(case-insensitive) or a decimal literal with optional fraction and exponent.
Returns `none` when `float` would raise `ValueError`. -/
def pyFloat? (s : String) : Option PyFloat :=
  let cs := (strLower (pyStrip s)).toList
  let (neg, body) : Bool × List Char :=
    match cs with
    | '+' :: rest => (false, rest)
    | '-' :: rest => (true, rest)
    | rest => (false, rest)
  if body = "inf".toList ∨ body = "infinity".toList then
    some (if neg then .neginf else .inf)
  else if body = "nan".toList then
    some .nan
  else
    let mantPart := body.takeWhile (· ≠ 'e')
    let expRest := body.dropWhile (· ≠ 'e')
    match expRest with
    | [] =>
      (pyMantissa? mantPart).map (fun m => .finite (pyFloatOfParts neg m 0))
    | _ :: ecs =>
      match pyMantissa? mantPart, pyExponent? ecs with
      | some m, some e => some (.finite (pyFloatOfParts neg m e))
      | _, _ => none

/-! ### Type guessing and column inference (`mojo_common.py`)

`MojoSkel._guess_type` and `MojoSkel._infer_columns_from_rows`, lines
66-115.  A CSV cell is `Option String`: `none` embeds Python `None` (a
short row under `csv.DictReader`), `some s` an actual field. -/

/-- `MojoSkel._guess_type`: `None` is TEXT; a string is stripped, and a
blank string is TEXT; otherwise try `int(value)` (INTEGER), then
`float(value)` (REAL), else TEXT. -/
def guess_type (value : Option String) : String :=
  match value with
  | none => "TEXT"
  | some s =>
    let v := pyStrip s
    if v = "" then "TEXT"
    else if (pyInt? v).isSome then "INTEGER"
    else if (pyFloat? v).isSome then "REAL"
    else "TEXT"

/-- A CSV row as produced by `csv.DictReader`: an association list from
header name to cell. -/
abbrev Row := List (String × Option String)

/-- The cells a row contributes to a column (a well-formed row has at most
one). -/
def rowColValues (r : Row) (col : String) : List (Option String) :=
  (r.filter (fun kv => kv.1 = col)).map (·.2)

/-- All sampled cells of one column, in row order: the values the source's
`type_counters[key]` tallies. -/
def colValues (rows : List Row) (col : String) : List (Option String) :=
  rows.flatMap (fun r => rowColValues r col)

/-- `type_counters[col][t]` of `_infer_columns_from_rows`: how many sampled
cells of `col` guess as type `t`. -/
def typeCount (rows : List Row) (col : String) (t : String) : Nat :=
  (colValues rows col).countP (fun v => guess_type v = t)

/-- The per-column decision of `_infer_columns_from_rows`: TEXT tally zero
and a REAL present gives REAL, TEXT tally zero otherwise gives INTEGER, any
TEXT tally gives TEXT. -/
def inferredColType (rows : List Row) (col : String) : String :=
  if typeCount rows col "TEXT" = 0 then
    if 0 < typeCount rows col "REAL" then "REAL" else "INTEGER"
  else "TEXT"

/-- Column names in first-appearance order (the iteration order of the
source's `defaultdict`). -/
def uniqueKeysAux (seen : List String) : List String → List String
  | [] => []
  | k :: rest =>
    if k ∈ seen then uniqueKeysAux seen rest
    else k :: uniqueKeysAux (k :: seen) rest

/-- Keys of all sampled rows in first-appearance order. -/
def allKeys (rows : List Row) : List String :=
  uniqueKeysAux [] (rows.flatMap (fun r => r.map (·.1)))

/-- `MojoSkel._infer_columns_from_rows`: the inferred column→type mapping,
in first-appearance key order. -/
def infer_columns_from_rows (rows : List Row) : List (String × String) :=
  (allKeys rows).map (fun c => (c, inferredColType rows c))

/-- A blank CSV cell: Python `None`, or a string that strips to empty. -/
def isBlankCell (v : Option String) : Bool :=
  match v with
  | none => true
  | some s => pyStrip s = ""

/-! ### SQLite values and the CSV import of `MojoSkel.import_csv`
(`mojo_common.py` lines 160-229) -/

/-- A SQLite storage value as produced by `_parse_row_values`: `NULL`, an
integer, a real (a parsed Python float), or text. -/
inductive SValue where
  | null
  | int (i : Int)
  | real (f : PyFloat)
  | text (s : String)
  deriving DecidableEq, Repr

/-- SQLite `=` between two non-null storage classes: integers and reals
compare numerically, text compares by exact string, distinct storage
classes (numeric vs text) are unequal, and `nan` equals nothing. -/
def svEqNonNull : SValue → SValue → Bool
  | .int i, .int j => i = j
  | .int i, .real (.finite q) => (i : ℚ) = q
  | .real (.finite q), .int i => q = (i : ℚ)
  | .real (.finite q), .real (.finite r) => q = r
  | .real .inf, .real .inf => true
  | .real .neginf, .real .neginf => true
  | .text s, .text t => s = t
  | _, _ => false

/-- SQLite `=` with three-valued logic: `none` is SQL NULL (unknown). -/
def sqlEq (a b : SValue) : Option Bool :=
  match a, b with
  | .null, _ => none
  | _, .null => none
  | a, b => some (svEqNonNull a b)

/-- `MojoSkel._parse_row_values`: convert one CSV row to SQLite values
following the column→type mapping.  A missing key reads as `""`
(`row.get(col, "")`); `None` or a blank string becomes NULL; REAL columns
use `float(val)`, INTEGER columns `int(val)`, TEXT columns keep the string.
The first failing conversion aborts the row with that error. -/
def parse_row_values (columns : List (String × String)) (row : Row) :
    Except String (List SValue) :=
  match columns with
  | [] => .ok []
  | (col, colType) :: rest =>
    let val : Option String :=
      match row.find? (fun kv => kv.1 = col) with
      | some kv => kv.2
      | none => some ""
    match val with
    | none => (parse_row_values rest row).map (.null :: ·)
    | some s =>
      if pyStrip s = "" then (parse_row_values rest row).map (.null :: ·)
      else if colType = "REAL" then
        match pyFloat? s with
        | some f => (parse_row_values rest row).map (.real f :: ·)
        | none => .error (s!"could not convert string to float: {s}")
      else if colType = "INTEGER" then
        match pyInt? s with
        | some i => (parse_row_values rest row).map (.int i :: ·)
        | none => .error (s!"invalid literal for int with base 10: {s}")
      else (parse_row_values rest row).map (.text s :: ·)

/-- `INSERT OR IGNORE` of one parsed row: skip silently when a row with the
same non-null primary-key value already exists, else append.  (A NULL key
in an `INTEGER PRIMARY KEY` column would be auto-assigned by SQLite; the
model keeps the row as parsed.) -/
def insertOrIgnore (pkIdx : Nat) (tbl : List (List SValue))
    (vals : List SValue) : List (List SValue) :=
  let pkv := vals.getD pkIdx .null
  if pkv ≠ .null ∧ tbl.any (fun r => sqlEq (r.getD pkIdx .null) pkv = some true)
  then tbl
  else tbl ++ [vals]

/-- The second pass of `import_csv`: insert every row, collecting rows whose
value conversion raises into `failed_rows` in order. -/
def secondPass (columns : List (String × String)) (pkIdx : Nat)
    (rows : List Row) (tbl : List (List SValue))
    (failed : List (Row × String)) :
    List (List SValue) × List (Row × String) :=
  match rows with
  | [] => (tbl, failed)
  | r :: rest =>
    match parse_row_values columns r with
    | .ok vals => secondPass columns pkIdx rest (insertOrIgnore pkIdx tbl vals) failed
    | .error e => secondPass columns pkIdx rest tbl (failed ++ [(r, e)])

/-- The rows of a CSV that fail value conversion, paired with their error,
in CSV order. -/
def failedOf (columns : List (String × String)) (rows : List Row) :
    List (Row × String) :=
  rows.filterMap (fun r =>
    match parse_row_values columns r with
    | .ok _ => none
    | .error e => some (r, e))

/-- The table contents after committing every row that converted
successfully, via insert-or-ignore. -/
def commitGood (columns : List (String × String)) (pkIdx : Nat)
    (rows : List Row) (tbl : List (List SValue)) : List (List SValue) :=
  match rows with
  | [] => tbl
  | r :: rest =>
    match parse_row_values columns r with
    | .ok vals => commitGood columns pkIdx rest (insertOrIgnore pkIdx tbl vals)
    | .error _ => commitGood columns pkIdx rest tbl

/-- The mutable state `import_csv` touches: `self.columns` (empty when not
yet inferred) and the table (`none` when it does not exist). -/
structure ImportState where
  columns : List (String × String)
  table? : Option (List (List SValue))
  deriving DecidableEq, Repr

/-- Fatal outcomes of `import_csv` (Python exceptions). -/
inductive ImportError where
  | emptyCsv
  | noColumns
  | pkNotFound (col : String)
  | importFailed (path : String) (shown : List (Row × String)) (more : Nat)
  deriving DecidableEq, Repr

/-- Normal returns of `import_csv`: the missing-file path prints and
returns (no exception), a full run returns the inserted-row delta. -/
inductive ImportOk where
  | skippedMissingFile
  | inserted (delta : Int)
  deriving DecidableEq, Repr

/-- `_create_full_tables` key resolution: default to the first column, and
reject a requested primary key absent from the columns. -/
def resolvePk (columns : List (String × String)) (pkColumn : Option String) :
    Except ImportError String :=
  match pkColumn with
  | none =>
    match columns.head? with
    | some kv => .ok kv.1
    | none => .error .noColumns
  | some p =>
    if (columns.map (·.1)).contains p then .ok p else .error (.pkNotFound p)

/-- Index of a column name in the column mapping (0 when absent). -/
def pkIndex (columns : List (String × String)) (pk : String) : Nat :=
  ((columns.map (·.1)).indexOf pk)

/-- `MojoSkel.import_csv`.  `file` is `none` when opening the path raises
`FileNotFoundError` (absorbed: print and return), else the parsed
`DictReader` rows.  First pass: sample `sampleSize` rows, raise on an empty
CSV, infer columns only when not already set.  Then create the table if
needed, run the second pass, commit, and raise an aggregate error naming
the path with the first 5 failures and the remainder count when any row
failed. -/
def import_csv (st : ImportState) (path : String) (file : Option (List Row))
    (pkColumn : Option String) (sampleSize : Nat) :
    ImportState × Except ImportError ImportOk :=
  match file with
  | none => (st, .ok .skippedMissingFile)
  | some rows =>
    let sample := rows.take sampleSize
    if sample.isEmpty then (st, .error .emptyCsv)
    else
      let columns :=
        if st.columns.isEmpty then infer_columns_from_rows sample else st.columns
      match resolvePk columns pkColumn with
      | .error e => ({ st with columns := columns }, .error e)
      | .ok pk =>
        let tbl0 := st.table?.getD []
        let countBefore := tbl0.length
        let (tblFinal, failed) := secondPass columns (pkIndex columns pk) rows tbl0 []
        let st' : ImportState := { columns := columns, table? := some tblFinal }
        if failed.isEmpty then
          (st', .ok (.inserted ((tblFinal.length : Int) - (countBefore : Int))))
        else
          (st', .error (.importFailed path (failed.take 5) (failed.length - 5)))

/-! ### The member table and name resolution (`mojo_member.py`) -/

/-- `MemberData` of `mojo_member.py`. -/
structure MemberData where
  member_number : Int
  title : String
  first_name : String
  last_name : String
  membermojo_id : Int
  short_url : String
  deriving DecidableEq, Repr

/-- The titles admitted by the `CHECK` constraint of `Member._create_tables`. -/
def validTitles : List String := ["Dr", "Mr", "Mrs", "Miss", "Ms"]

/-- Whether inserting `m` into the members table violates a constraint of
`Member._create_tables`: duplicate `member_number` (primary key), duplicate
`membermojo_id` (`UNIQUE`), or a title outside the `CHECK` list. -/
def memberInsertViolates (tbl : List MemberData) (m : MemberData) : Bool :=
  tbl.any (fun x => x.member_number = m.member_number) ||
  tbl.any (fun x => x.membermojo_id = m.membermojo_id) ||
  !(validTitles.contains m.title)

/-- `Member._add`: `INSERT OR IGNORE` of one member — a violated constraint
leaves the table unchanged without error, otherwise the row is appended. -/
def member_add (tbl : List MemberData) (m : MemberData) : List MemberData :=
  if memberInsertViolates tbl m then tbl else tbl ++ [m]

/-- `member_number` is unique across the rows of a members table. -/
def uniqueNumbers (tbl : List MemberData) : Prop :=
  tbl.Pairwise (fun a b => a.member_number ≠ b.member_number)

/-- `membermojo_id` is unique across the rows of a members table. -/
def uniqueIds (tbl : List MemberData) : Prop :=
  tbl.Pairwise (fun a b => a.membermojo_id ≠ b.membermojo_id)

/-- `Member._lookup_exact`: first row whose `first_name` and `last_name`
match case-insensitively (SQL `LOWER` on both sides). -/
def lookup_exact (db : List MemberData) (first last : String) :
    Option (String × String) :=
  (db.find? (fun m =>
    strLower m.first_name = strLower first &&
    strLower m.last_name = strLower last)).map
    (fun m => (m.first_name, m.last_name))

/-- `Member._lookup_initial`: first row whose `first_name` starts with the
letter (case-insensitive `LIKE letter%`) and whose `last_name` matches
exactly (case-insensitive), `LIMIT 1`. -/
def lookup_initial (db : List MemberData) (letter last : String) :
    Option (String × String) :=
  (db.find? (fun m =>
    strStartsWith (strLower m.first_name) (strLower letter) &&
    strLower m.last_name = strLower last)).map
    (fun m => (m.first_name, m.last_name))

/-- Python `full_name.strip().split()`: split on whitespace runs, no empty
parts. -/
def splitWsAux (cur : List Char) : List Char → List String
  | [] => if cur.isEmpty then [] else [String.mk cur.reverse]
  | c :: rest =>
    if c.isWhitespace then
      if cur.isEmpty then splitWsAux [] rest
      else String.mk cur.reverse :: splitWsAux [] rest
    else splitWsAux (c :: cur) rest

def pySplit (s : String) : List String := splitWsAux [] s.toList

/-- `parts[i][0].upper()`: the upper-cased first character of a name part,
as a string. -/
def initialOf (s : String) : String := strUpper (String.mk (s.toList.take 1))

/-- The exceptions `Member.get_mojo_name` raises when `found_error` is set:
a name too short to split, or a final miss carrying every variant tried. -/
inductive NameError where
  | cannotExtract (fullName : String)
  | notFound (fullName : String) (tried : List String)
  deriving DecidableEq, Repr

/-- Steps 3-5 of `Member.get_mojo_name`: try the first initial against
`first_name` with the fixed last name, then the second initial when the
initials (here the list of upper-cased part initials, one character each in
the basic-latin source data) have a second one, and finally fail (raising
with the tried list when `found_error`). -/
def initialFallback (db : List MemberData) (fullName plast : String)
    (foundError : Bool) (initials : List String) (tried : List String) :
    Except NameError (Option (String × String)) :=
  let i1 := initials.headD ""
  let tried1 := tried ++ [s!"{i1} {plast}"]
  match lookup_initial db i1 plast with
  | some r => .ok (some r)
  | none =>
    if 1 < initials.length then
      let i2 := initials.getD 1 ""
      let tried2 := tried1 ++ [s!"{i2} {plast}"]
      match lookup_initial db i2 plast with
      | some r => .ok (some r)
      | none =>
        if foundError then .error (.notFound fullName tried2) else .ok none
    else
      if foundError then .error (.notFound fullName tried1) else .ok none

/-- `Member.get_mojo_name`: resolve a free-text full name through the
cascade — split into parts, fail early on fewer than 2 parts, try exact
`(parts[0], parts[-1])`, then for exactly 3 parts exact
`(parts[1], parts[2])`, then the initial fallbacks. -/
def get_mojo_name (db : List MemberData) (fullName : String)
    (foundError : Bool) : Except NameError (Option (String × String)) :=
  match pySplit fullName with
  | [] => if foundError then .error (.cannotExtract fullName) else .ok none
  | [_] => if foundError then .error (.cannotExtract fullName) else .ok none
  | p0 :: p1 :: rest =>
    let plast := (p1 :: rest).getLast (List.cons_ne_nil p1 rest)
    let tried1 := [s!"{p0} {plast}"]
    match lookup_exact db p0 plast with
    | some r => .ok (some r)
    | none =>
      match rest with
      | [p2] =>
        let tried2 := tried1 ++ [s!"{p1} {p2}"]
        match lookup_exact db p1 p2 with
        | some r => .ok (some r)
        | none =>
          initialFallback db fullName plast foundError
            [initialOf p0, initialOf p1] tried2
      | _ => initialFallback db fullName plast foundError [initialOf p0] tried1

/-! ### The row-level diff of `generate_sql_diff` (`mojo_loader.py` lines
152-230)

The generated SQL is embedded with SQLite's three-valued logic: an SQL
boolean is `Option Bool` with `none` for NULL. -/

/-- SQL `NOT` under three-valued logic. -/
def not3 (a : Option Bool) : Option Bool := a.map (!·)

/-- SQL `OR` under three-valued logic. -/
def or3 : Option Bool → Option Bool → Option Bool
  | some true, _ => some true
  | _, some true => some true
  | some false, some false => some false
  | _, _ => none

/-- SQL `IS NULL` (always a plain boolean). -/
def isNullB : SValue → Bool
  | .null => true
  | _ => false

/-- One disjunct of the changed-row predicate:
`NOT ((n.c = o.c) OR (n.c IS NULL AND o.c IS NULL))`. -/
def colCompare (nv ov : SValue) : Option Bool :=
  not3 (or3 (sqlEq nv ov) (some (isNullB nv && isNullB ov)))

/-- The full `WHERE` expression of the `changed` CTE: the `OR` of
`colCompare` across every column. -/
def rowChangedExpr (numCols : Nat) (n o : List SValue) : Option Bool :=
  (List.range numCols).foldl
    (fun acc i => or3 acc (colCompare (n.getD i .null) (o.getD i .null)))
    (some false)

/-- A row of `PRAGMA table_info`: the column name and its primary-key flag
(`row[5] == 1`). -/
structure ColInfo where
  name : String
  isPk : Bool
  deriving DecidableEq, Repr

/-- Key detection of `generate_sql_diff`: the declared primary-key column,
else a column literally named `id`, else the first column. -/
def detectKey (cols : List ColInfo) : String :=
  match cols.find? (·.isPk) with
  | some c => c.name
  | none =>
    if (cols.map (·.name)).contains "id" then "id"
    else ((cols.head?).map (·.name)).getD ""

/-- One row of the diff result: the key (`k`), the diff type, and the
selected preview columns with their values. -/
structure DiffEntry where
  k : SValue
  diffType : String
  preview : List (String × SValue)
  deriving DecidableEq, Repr

/-- SQLite `ORDER BY` comparison: NULL sorts first, then numerics by value,
then text by string order.  (Infinities order around the finite rationals;
`nan` cannot reach storage, SQLite binds it as NULL.) -/
def svLe (a b : SValue) : Bool :=
  match a, b with
  | .null, _ => true
  | _, .null => false
  | .text s, .text t => s ≤ t
  | .text _, _ => false
  | _, .text _ => true
  | a, b => numKey a ≤ numKey b
where
  /-- Order key for the numeric storage classes. -/
  numKey : SValue → Int ×ₗ ℚ
  | .int i => toLex ((0 : Int), (i : ℚ))
  | .real (.finite q) => toLex ((0 : Int), q)
  | .real .inf => toLex ((1 : Int), 0)
  | .real .neginf => toLex ((-1 : Int), 0)
  | .real .nan => toLex ((-2 : Int), 0)
  | _ => toLex ((0 : Int), 0)

/-- Insert into a sorted list (the step of a stable insertion sort). -/
def insertSorted (le : DiffEntry → DiffEntry → Bool) (x : DiffEntry) :
    List DiffEntry → List DiffEntry
  | [] => [x]
  | y :: ys => if le x y then x :: y :: ys else y :: insertSorted le x ys

/-- `ORDER BY`: stable insertion sort by the given comparison. -/
def sortBy (le : DiffEntry → DiffEntry → Bool) (l : List DiffEntry) :
    List DiffEntry :=
  l.foldr (insertSorted le) []

/-- `generate_sql_diff`: column names and primary key from the pragma, a
`RuntimeError` when the new table has no columns, then the three CTEs —
`added` (new keys with no old counterpart), `deleted` (old keys with no new
counterpart), `changed` (key in both, changed-row predicate TRUE) — with a
preview of the key column followed by the first 5 non-key columns,
concatenated and ordered by key. -/
def generate_sql_diff (cols : List ColInfo)
    (newTbl oldTbl : List (List SValue)) : Except String (List DiffEntry) :=
  if cols.isEmpty then .error "table has no columns"
  else
    let names := cols.map (·.name)
    let key := detectKey cols
    let kIdx := names.indexOf key
    let pcols := key :: ((names.filter (· ≠ key)).take 5)
    let entryOf : String → List SValue → DiffEntry := fun dt r =>
      { k := r.getD kIdx .null, diffType := dt,
        preview := pcols.map (fun c => (c, r.getD (names.indexOf c) .null)) }
    let keyMatch : List SValue → List SValue → Bool := fun n o =>
      sqlEq (n.getD kIdx .null) (o.getD kIdx .null) = some true
    let added := (newTbl.filter
      (fun n => !(oldTbl.any (fun o => keyMatch n o)))).map (entryOf "added")
    let deleted := (oldTbl.filter
      (fun o => !(newTbl.any (fun n => keyMatch n o)))).map (entryOf "deleted")
    let changed := newTbl.flatMap (fun n =>
      (oldTbl.filter (fun o =>
        keyMatch n o && rowChangedExpr cols.length n o = some true)).map
        (fun _ => entryOf "changed" n))
    .ok (sortBy (fun a b => svLe a.k b.k) (added ++ deleted ++ changed))

/-! ### The merge-capable importer (modelled from the spec)

The repository's tests (`tests/test_merge_import.py`) call
`MojoSkel.import_csv(csv, merge=True)` and `table_exists()`, but the
`merge` parameter and the rename/diff/drop path are absent from the source
tree; they are modelled here from spec section 4.3 (TableImporter). -/

/-- A keyed row of the modelled importer: primary-key value and payload. -/
abbrev MRow := Int × String

/-- A database as a named collection of tables. -/
abbrev Db := List (String × List MRow)

/-- Whether a table by this name exists. -/
def tableExists (db : Db) (name : String) : Bool := db.any (·.1 = name)

/-- Contents of the named table, when it exists. -/
def getTable (db : Db) (name : String) : Option (List MRow) :=
  (db.find? (·.1 = name)).map (·.2)

/-- `DROP TABLE IF EXISTS`. -/
def dropTable (db : Db) (name : String) : Db := db.filter (·.1 ≠ name)

/-- `ALTER TABLE old RENAME TO new`. -/
def renameTable (db : Db) (old new : String) : Db :=
  db.map (fun nt => if nt.1 = old then (new, nt.2) else nt)

/-- Replace the contents of the named table. -/
def updateTable (db : Db) (name : String) (f : List MRow → List MRow) : Db :=
  db.map (fun nt => if nt.1 = name then (nt.1, f nt.2) else nt)

/-- Insert-or-ignore of keyed rows: a row whose key is already present is
silently dropped, others are appended in order. -/
def insertIgnoreRows (tbl rows : List MRow) : List MRow :=
  rows.foldl (fun t r => if t.any (·.1 = r.1) then t else t ++ [r]) tbl

/-- Insertion step for sorting keyed diff entries by key ascending. -/
def insertKeyed (x : Int × String) : List (Int × String) → List (Int × String)
  | [] => [x]
  | y :: ys => if x.1 ≤ y.1 then x :: y :: ys else y :: insertKeyed x ys

/-- Sort keyed diff entries by key ascending (stable insertion sort). -/
def sortKeyed (l : List (Int × String)) : List (Int × String) :=
  l.foldr insertKeyed []

/-- Modelled from the spec (section 4.4): the added/deleted/changed diff
between two keyed snapshots, ordered by key ascending. -/
def specDiff (newT oldT : List MRow) : List (Int × String) :=
  let added := (newT.filter (fun r => !(oldT.any (·.1 = r.1)))).map
    (fun r => (r.1, "added"))
  let deleted := (oldT.filter (fun r => !(newT.any (·.1 = r.1)))).map
    (fun r => (r.1, "deleted"))
  let changed := newT.filterMap (fun r =>
    match oldT.find? (·.1 = r.1) with
    | some o => if o.2 ≠ r.2 then some (r.1, "changed") else none
    | none => none)
  sortKeyed (added ++ deleted ++ changed)

/-- Modelled from the spec (section 4.3): `import_csv` with the `merge`
parameter, which is exercised by `tests/test_merge_import.py` but missing
from the source tree.  With `merge=False` on an existing table: drop a
stale `<name>_old`, rename the table to `<name>_old`, import into a fresh
empty table, compute and emit the diff against `<name>_old`, then drop
`<name>_old`.  With `merge=True`: no rename and no diff, insert-or-ignore
directly into the existing (or newly created) table.  Returns the new
database and the emitted diff, if any. -/
def import_csv_merge (db : Db) (name : String) (rows : List MRow)
    (merge : Bool) : Db × Option (List (Int × String)) :=
  if merge then
    let db1 := if tableExists db name then db else db ++ [(name, [])]
    (updateTable db1 name (fun t => insertIgnoreRows t rows), none)
  else if tableExists db name then
    let oldName := name ++ "_old"
    let db1 := dropTable db oldName
    let db2 := renameTable db1 name oldName
    let db3 := db2 ++ [(name, [])]
    let db4 := updateTable db3 name (fun t => insertIgnoreRows t rows)
    let newT := (getTable db4 name).getD []
    let oldT := (getTable db4 oldName).getD []
    (dropTable db4 oldName, some (specDiff newT oldT))
  else
    (updateTable (db ++ [(name, [])]) name (fun t => insertIgnoreRows t rows),
     none)

/-! ### Fuzzy name matching (modelled from the spec)

`tests/test_mojo_members.py` exercises `Member.get_fuzz_name`, which is
missing from the source tree; it and the resolution step that falls back
to it are modelled from spec section 4.5 (steps 6-7). -/

/-- Inner step of the longest-common-subsequence length: `f` computes the
LCS length of the first list's tail against any second list. -/
def lcsInner (a : Char) (f : List Char → Nat) : List Char → Nat
  | [] => 0
  | b :: bs => if a = b then f bs + 1 else max (lcsInner a f bs) (f (b :: bs))

/-- Length of a longest common subsequence: the matched-character count
underlying the similarity ratio. -/
def lcsLen : List Char → List Char → Nat
  | [] => fun _ => 0
  | a :: as => lcsInner a (lcsLen as)

/-- The lower-cased `"first last"` candidate string of a stored member. -/
def candOf (m : MemberData) : String :=
  strLower (m.first_name ++ " " ++ m.last_name)

/-- The candidate's similarity ratio `2*M/(|cand|+|input|)` reaches the 0.7
cutoff, stated by cross-multiplication. -/
def fuzzQualifies (input cand : String) : Prop :=
  7 * (cand.length + input.length) ≤ 20 * lcsLen cand.toList input.toList

instance (input cand : String) : Decidable (fuzzQualifies input cand) := by
  unfold fuzzQualifies; infer_instance

/-- `ratio c1 ≤ ratio c2` against the input, by cross-multiplication. -/
def fuzzRatioLe (input c1 c2 : String) : Prop :=
  lcsLen c1.toList input.toList * (c2.length + input.length) ≤
  lcsLen c2.toList input.toList * (c1.length + input.length)

/-- The challenger's ratio strictly exceeds the current best's. -/
def fuzzBetter (input : String) (chal cur : MemberData × String) : Bool :=
  lcsLen cur.2.toList input.toList * (chal.2.length + input.length) <
  lcsLen chal.2.toList input.toList * (cur.2.length + input.length)

/-- Scan for the closest candidate, keeping the earlier one on ties. -/
def pickBest (input : String) (c : MemberData × String) :
    List (MemberData × String) → MemberData × String
  | [] => c
  | d :: ds => pickBest input (if fuzzBetter input d c then d else c) ds

/-- Modelled from the spec (section 4.5 step 6): `Member.get_fuzz_name`,
missing from the source tree.  Build the lower-cased `"first last"`
candidate corpus over every stored member, keep those whose similarity
ratio to the lower-cased input reaches the 0.7 cutoff, and return the
closest qualifying candidate's stored name pair, or no-match. -/
def get_fuzz_name (db : List MemberData) (input : String) :
    Option (String × String) :=
  let t := strLower input
  let qual := (db.map (fun m => (m, candOf m))).filter
    (fun c => decide (fuzzQualifies t c.2))
  match qual with
  | [] => none
  | c :: cs =>
    let best := pickBest t c cs
    some (best.1.first_name, best.1.last_name)

/-- Modelled from the spec (section 4.5): `resolve` — the cascade of
`get_mojo_name`, falling back to fuzzy matching when no stage matched and
not strict. -/
def resolve (db : List MemberData) (fullName : String) (strict : Bool) :
    Except NameError (Option (String × String)) :=
  if (pySplit fullName).length < 2 then
    if strict then .error (.cannotExtract fullName) else .ok none
  else
    match get_mojo_name db fullName strict with
    | .ok (some r) => .ok (some r)
    | .error e => .error e
    | .ok none =>
      if strict then .ok none else .ok (get_fuzz_name db fullName)

/-! ## Theorems -/

/-- Permuting the sampled rows permutes each column's value list. -/
theorem colValues_perm {rows1 rows2 : List Row} (col : String)
    (h : rows1.Perm rows2) :
    (colValues rows1 col).Perm (colValues rows2 col) :=
  h.flatMap_right _

/-- Permuting the sampled rows preserves every type tally. -/
theorem typeCount_perm {rows1 rows2 : List Row} (col t : String)
    (h : rows1.Perm rows2) :
    typeCount rows1 col t = typeCount rows2 col t :=
  (colValues_perm col h).countP_eq _

/-- The TEXT tally is zero exactly when no sampled value guesses TEXT. -/
theorem typeCount_text_eq_zero_iff (rows : List Row) (col t : String) :
    typeCount rows col t = 0 ↔ ∀ v ∈ colValues rows col, guess_type v ≠ t := by
  simp [typeCount, List.countP_eq_zero]

/-- The tally for `t` is positive exactly when some sampled value guesses
`t`. -/
theorem typeCount_pos_iff (rows : List Row) (col t : String) :
    0 < typeCount rows col t ↔ ∃ v ∈ colValues rows col, guess_type v = t := by
  simp [typeCount, List.countP_pos_iff]

/-- C5: for every column of the sampled rows, the inferred type follows the
decision rule — any TEXT-guessing value gives TEXT, else any REAL-guessing
value gives REAL, else INTEGER — and the decision is independent of the
order of the sampled values (re-running on the same sample is the
reflexive case). -/
theorem c5_type_inference_decision (rows rows2 : List Row) (col : String) :
    ((∃ v ∈ colValues rows col, guess_type v = "TEXT") →
        inferredColType rows col = "TEXT")
    ∧ ((∀ v ∈ colValues rows col, guess_type v ≠ "TEXT") →
        (∃ v ∈ colValues rows col, guess_type v = "REAL") →
        inferredColType rows col = "REAL")
    ∧ ((∀ v ∈ colValues rows col,
          guess_type v ≠ "TEXT" ∧ guess_type v ≠ "REAL") →
        inferredColType rows col = "INTEGER")
    ∧ (rows.Perm rows2 →
        inferredColType rows col = inferredColType rows2 col) := by
  refine ⟨?_, ?_, ?_, ?_⟩
  · intro hex
    have hpos : 0 < typeCount rows col "TEXT" :=
      (typeCount_pos_iff rows col "TEXT").mpr hex
    unfold inferredColType
    simp [Nat.pos_iff_ne_zero.mp hpos]
  · intro hall hex
    have hz : typeCount rows col "TEXT" = 0 :=
      (typeCount_text_eq_zero_iff rows col "TEXT").mpr hall
    have hpos : 0 < typeCount rows col "REAL" :=
      (typeCount_pos_iff rows col "REAL").mpr hex
    unfold inferredColType
    simp [hz, hpos]
  · intro hall
    have hz : typeCount rows col "TEXT" = 0 :=
      (typeCount_text_eq_zero_iff rows col "TEXT").mpr
        (fun v hv => (hall v hv).1)
    have hz2 : typeCount rows col "REAL" = 0 :=
      (typeCount_text_eq_zero_iff rows col "REAL").mpr
        (fun v hv => (hall v hv).2)
    unfold inferredColType
    simp [hz, hz2]
  · intro hperm
    unfold inferredColType
    rw [typeCount_perm col "TEXT" hperm, typeCount_perm col "REAL" hperm]

/-- Witness for C5 at a concrete sample: the column `a` sampled as
`["2", "1.5", "1"]` infers REAL, in either row order. -/
theorem c5_type_inference_decision_witness :
    inferredColType [[("a", some "2")], [("a", some "1.5")], [("a", some "1")]]
      "a" = "REAL"
    ∧ inferredColType [[("a", some "2")], [("a", some "1.5")], [("a", some "1")]]
        "a" =
      inferredColType [[("a", some "1")], [("a", some "1.5")], [("a", some "2")]]
        "a" := by
  have h := c5_type_inference_decision
    [[("a", some "2")], [("a", some "1.5")], [("a", some "1")]]
    [[("a", some "1")], [("a", some "1.5")], [("a", some "2")]] "a"
  exact ⟨h.2.1 (by decide) ⟨some "1.5", by decide⟩, h.2.2.2 (by decide)⟩

/-- C6 counterexample: the column `a` sampled as `["1", ""]` — one integer
string and one blank — is inferred TEXT, not INTEGER: a blank value does
force the column to TEXT. -/
theorem c6_blank_counterexample :
    inferredColType [[("a", some "1")], [("a", some "")]] "a" = "TEXT"
    ∧ inferredColType [[("a", some "1")], [("a", some "")]] "a" ≠ "INTEGER" := by
  constructor <;> decide

/-- C6 (amended): blank sampled values count toward the TEXT tally, so any
blank among a column's sampled values forces the column to TEXT; in
particular a column whose sampled values are all blank (and non-empty) is
TEXT. -/
theorem c6_blank_forces_text (rows : List Row) (col : String) :
    ((∃ v ∈ colValues rows col, isBlankCell v = true) →
        inferredColType rows col = "TEXT")
    ∧ (colValues rows col ≠ [] →
        (∀ v ∈ colValues rows col, isBlankCell v = true) →
        inferredColType rows col = "TEXT") := by
  have hguess : ∀ v, isBlankCell v = true → guess_type v = "TEXT" := by
    intro v hv
    match v with
    | none => rfl
    | some s =>
      simp only [isBlankCell, decide_eq_true_eq] at hv
      simp [guess_type, hv]
  constructor
  · rintro ⟨v, hv, hb⟩
    exact (c5_type_inference_decision rows rows col).1 ⟨v, hv, hguess v hb⟩
  · intro hne hall
    match hcv : colValues rows col with
    | [] => exact absurd hcv hne
    | v :: vs =>
      refine (c5_type_inference_decision rows rows col).1 ⟨v, ?_, ?_⟩
      · rw [hcv]; exact List.mem_cons_self v vs
      · exact hguess v (hall v (by rw [hcv]; exact List.mem_cons_self v vs))

/-- Witness for C6 (amended) at a concrete sample: a whitespace-only cell
among integer cells forces TEXT, and an all-blank column is TEXT. -/
theorem c6_blank_forces_text_witness :
    inferredColType [[("a", some " ")], [("a", some "1")]] "a" = "TEXT"
    ∧ inferredColType [[("b", some "")], [("b", some " ")]] "b" = "TEXT" :=
  ⟨(c6_blank_forces_text [[("a", some " ")], [("a", some "1")]] "a").1
      ⟨some " ", by decide, by decide⟩,
    (c6_blank_forces_text [[("b", some "")], [("b", some " ")]] "b").2
      (by decide) (by decide)⟩

/-- C10: importing from a path whose open raises `FileNotFoundError` is
absorbed — `import_csv` prints and returns normally, the state (columns
and table) is untouched, no table is created and no row inserted. -/
theorem c10_missing_file_absorbed (st : ImportState) (path : String)
    (pkColumn : Option String) (sampleSize : Nat) :
    import_csv st path none pkColumn sampleSize =
      (st, .ok .skippedMissingFile) := rfl

/-- C9: `member_number` and `membermojo_id` uniqueness is an invariant of
`Member._add` — inserting a member whose number or membermojo id already
exists is silently skipped, leaving the table unchanged with no error, and
any insert preserves both uniqueness invariants. -/
theorem c9_member_insert_invariant (tbl : List MemberData) (m : MemberData)
    (h1 : uniqueNumbers tbl) (h2 : uniqueIds tbl) :
    (uniqueNumbers (member_add tbl m) ∧ uniqueIds (member_add tbl m))
    ∧ ((∃ x ∈ tbl, x.member_number = m.member_number ∨
          x.membermojo_id = m.membermojo_id) →
        member_add tbl m = tbl) := by
  constructor
  · by_cases hv : memberInsertViolates tbl m = true
    · simpa [member_add, hv] using ⟨h1, h2⟩
    · have hnum : ∀ x ∈ tbl, x.member_number ≠ m.member_number := by
        intro x hx heq
        exact hv (by simp only [memberInsertViolates, Bool.or_eq_true,
          List.any_eq_true, decide_eq_true_eq]
                     exact Or.inl (Or.inl ⟨x, hx, heq⟩))
      have hid : ∀ x ∈ tbl, x.membermojo_id ≠ m.membermojo_id := by
        intro x hx heq
        exact hv (by simp only [memberInsertViolates, Bool.or_eq_true,
          List.any_eq_true, decide_eq_true_eq]
                     exact Or.inl (Or.inr ⟨x, hx, heq⟩))
      have hadd : member_add tbl m = tbl ++ [m] := by
        simp [member_add, hv]
      rw [hadd]
      constructor
      · unfold uniqueNumbers at h1 ⊢
        rw [List.pairwise_append]
        exact ⟨h1, List.pairwise_singleton _ _,
          fun x hx y hy => by
            rw [List.mem_singleton] at hy
            exact hy ▸ hnum x hx⟩
      · unfold uniqueIds at h2 ⊢
        rw [List.pairwise_append]
        exact ⟨h2, List.pairwise_singleton _ _,
          fun x hx y hy => by
            rw [List.mem_singleton] at hy
            exact hy ▸ hid x hx⟩
  · rintro ⟨x, hx, hor⟩
    have hv : memberInsertViolates tbl m = true := by
      simp only [memberInsertViolates, Bool.or_eq_true, List.any_eq_true,
        decide_eq_true_eq]
      rcases hor with h | h
      · exact Or.inl (Or.inl ⟨x, hx, h⟩)
      · exact Or.inl (Or.inr ⟨x, hx, h⟩)
    simp [member_add, hv]

/-- Witness for C9: inserting a member that reuses member number 1 into a
table holding members 1 and 2 leaves the table unchanged, and uniqueness
is preserved. -/
theorem c9_member_insert_invariant_witness :
    member_add
      [⟨1, "Mr", "John", "Doe", 1001, "u1"⟩, ⟨2, "Ms", "Jane", "Smith", 1002, "u2"⟩]
      ⟨1, "Dr", "Emily", "Stone", 1003, "u3"⟩ =
      [⟨1, "Mr", "John", "Doe", 1001, "u1"⟩, ⟨2, "Ms", "Jane", "Smith", 1002, "u2"⟩]
    ∧ uniqueNumbers (member_add
      [⟨1, "Mr", "John", "Doe", 1001, "u1"⟩, ⟨2, "Ms", "Jane", "Smith", 1002, "u2"⟩]
      ⟨1, "Dr", "Emily", "Stone", 1003, "u3"⟩) := by
  have h := c9_member_insert_invariant
    [⟨1, "Mr", "John", "Doe", 1001, "u1"⟩, ⟨2, "Ms", "Jane", "Smith", 1002, "u2"⟩]
    ⟨1, "Dr", "Emily", "Stone", 1003, "u3"⟩
    (by unfold uniqueNumbers; decide) (by unfold uniqueIds; decide)
  exact ⟨h.2 ⟨⟨1, "Mr", "John", "Doe", 1001, "u1"⟩, by decide, Or.inl rfl⟩,
    h.1.1⟩

/-- The last element of the split parts, in the two-or-more case. -/
theorem getLast_of_getLastQ {p0 p1 plast : String} {rest : List String}
    (h : (p0 :: p1 :: rest).getLast? = some plast) :
    (p1 :: rest).getLast (List.cons_ne_nil p1 rest) = plast := by
  rw [List.getLast?_cons_cons, List.getLast?_eq_getLast (p1 :: rest)
    (List.cons_ne_nil p1 rest)] at h
  exact Option.some_injective _ h

/-- C4: `get_mojo_name` follows the cascade in order, short-circuiting at
the first success: fewer than 2 parts fails immediately (error when strict,
no-match otherwise); then exact `(parts[0], parts[-1])`; then, with exactly
3 parts, exact `(parts[1], parts[2])`; then the first-initial prefix match
with the exact last name; then, with 3 parts, the second-initial prefix
match; and in strict mode a final miss raises an error listing every
variant tried. -/
theorem c4_cascade_order (db : List MemberData) (fullName : String) :
    ((pySplit fullName).length < 2 →
      get_mojo_name db fullName true = .error (.cannotExtract fullName) ∧
      get_mojo_name db fullName false = .ok none)
    ∧ (∀ fe p0 p1 rest plast r,
        pySplit fullName = p0 :: p1 :: rest →
        (pySplit fullName).getLast? = some plast →
        lookup_exact db p0 plast = some r →
        get_mojo_name db fullName fe = .ok (some r))
    ∧ (∀ fe p0 p1 p2 r,
        pySplit fullName = [p0, p1, p2] →
        lookup_exact db p0 p2 = none →
        lookup_exact db p1 p2 = some r →
        get_mojo_name db fullName fe = .ok (some r))
    ∧ (∀ fe p0 p1 rest plast r,
        pySplit fullName = p0 :: p1 :: rest →
        (pySplit fullName).getLast? = some plast →
        lookup_exact db p0 plast = none →
        (∀ p2, rest = [p2] → lookup_exact db p1 p2 = none) →
        lookup_initial db (initialOf p0) plast = some r →
        get_mojo_name db fullName fe = .ok (some r))
    ∧ (∀ fe p0 p1 p2 r,
        pySplit fullName = [p0, p1, p2] →
        lookup_exact db p0 p2 = none →
        lookup_exact db p1 p2 = none →
        lookup_initial db (initialOf p0) p2 = none →
        lookup_initial db (initialOf p1) p2 = some r →
        get_mojo_name db fullName fe = .ok (some r))
    ∧ (∀ p0 p1 rest plast,
        pySplit fullName = p0 :: p1 :: rest →
        (pySplit fullName).getLast? = some plast →
        (∀ p2, rest ≠ [p2]) →
        lookup_exact db p0 plast = none →
        lookup_initial db (initialOf p0) plast = none →
        get_mojo_name db fullName false = .ok none ∧
        get_mojo_name db fullName true = .error (.notFound fullName
          [s!"{p0} {plast}", s!"{initialOf p0} {plast}"]))
    ∧ (∀ p0 p1 p2,
        pySplit fullName = [p0, p1, p2] →
        lookup_exact db p0 p2 = none →
        lookup_exact db p1 p2 = none →
        lookup_initial db (initialOf p0) p2 = none →
        lookup_initial db (initialOf p1) p2 = none →
        get_mojo_name db fullName false = .ok none ∧
        get_mojo_name db fullName true = .error (.notFound fullName
          [s!"{p0} {p2}", s!"{p1} {p2}", s!"{initialOf p0} {p2}",
            s!"{initialOf p1} {p2}"])) := by
  refine ⟨?_, ?_, ?_, ?_, ?_, ?_, ?_⟩
  · intro hlen
    match hp : pySplit fullName with
    | [] => unfold get_mojo_name; rw [hp]; exact ⟨rfl, rfl⟩
    | [x] => unfold get_mojo_name; rw [hp]; exact ⟨rfl, rfl⟩
    | x :: y :: rest => rw [hp] at hlen; simp at hlen; omega
  · intro fe p0 p1 rest plast r hp hlast hex
    have hgl := getLast_of_getLastQ (hp ▸ hlast)
    unfold get_mojo_name
    rw [hp]
    simp only [hgl, hex]
  · intro fe p0 p1 p2 r hp hex1 hex2
    have hgl : ([p1, p2] : List String).getLast (List.cons_ne_nil p1 [p2]) = p2 := rfl
    unfold get_mojo_name
    rw [hp]
    simp only [hgl, hex1, hex2]
  · intro fe p0 p1 rest plast r hp hlast hex1 hmid hini
    have hgl := getLast_of_getLastQ (hp ▸ hlast)
    unfold get_mojo_name
    rw [hp]
    match rest with
    | [p2] =>
      have hplast : plast = p2 := by
        rw [← hgl]; rfl
      simp only [hgl, hex1, hmid p2 rfl, initialFallback, List.headD]
      rw [hplast] at hini ⊢
      simp only [hini]
    | [] =>
      simp only [hgl, hex1, initialFallback, List.headD]
      simp only [hini]
    | q1 :: q2 :: qs =>
      simp only [hgl, hex1, initialFallback, List.headD]
      simp only [hini]
  · intro fe p0 p1 p2 r hp hex1 hex2 hini1 hini2
    have hgl : ([p1, p2] : List String).getLast (List.cons_ne_nil p1 [p2]) = p2 := rfl
    unfold get_mojo_name
    rw [hp]
    simp [hgl, hex1, hex2, initialFallback, hini1, hini2]
  · intro p0 p1 rest plast hp hlast hnot3 hex1 hini1
    have hgl := getLast_of_getLastQ (hp ▸ hlast)
    unfold get_mojo_name
    rw [hp]
    match rest with
    | [p2] => exact absurd rfl (hnot3 p2)
    | [] =>
      simp [hgl, hex1, initialFallback, hini1]
    | q1 :: q2 :: qs =>
      simp [hgl, hex1, initialFallback, hini1]
  · intro p0 p1 p2 hp hex1 hex2 hini1 hini2
    have hgl : ([p1, p2] : List String).getLast (List.cons_ne_nil p1 [p2]) = p2 := rfl
    unfold get_mojo_name
    rw [hp]
    simp [hgl, hex1, hex2, initialFallback, hini1, hini2]

/-- Witness for C4 at a concrete database and input: "A J Doe" against a
stored ("John","Doe") resolves through the second-initial stage. -/
theorem c4_cascade_order_witness :
    get_mojo_name [⟨1, "Mr", "John", "Doe", 1001, "u1"⟩] "A J Doe" true =
      .ok (some ("John", "Doe")) := by
  have h := (c4_cascade_order [⟨1, "Mr", "John", "Doe", 1001, "u1"⟩]
    "A J Doe").2.2.2.2.1
  exact h true "A" "J" "Doe" ("John", "Doe") (by decide) (by decide) (by decide)
    (by decide) (by decide)

/-- The insertion pass decomposes into the committed successes and the
ordered failure list. -/
theorem secondPass_eq (columns : List (String × String)) (pkIdx : Nat)
    (rows : List Row) (tbl : List (List SValue)) (failed : List (Row × String)) :
    secondPass columns pkIdx rows tbl failed =
      (commitGood columns pkIdx rows tbl, failed ++ failedOf columns rows) := by
  induction rows generalizing tbl failed with
  | nil => simp [secondPass, commitGood, failedOf]
  | cons r rest ih =>
    match hpr : parse_row_values columns r with
    | .ok vals =>
      simp only [secondPass, commitGood, failedOf, hpr, List.filterMap_cons]
      exact ih _ _
    | .error e =>
      simp only [secondPass, commitGood, failedOf, hpr, List.filterMap_cons]
      rw [ih _ _]
      simp [failedOf]

/-- C3: when some rows of a CSV fail value conversion, `import_csv` collects
them instead of aborting, commits every row that succeeded, and then raises
the aggregate error naming the source path with at most 5 sample failures
plus the remainder count. -/
theorem c3_partial_failure_commit (st : ImportState) (path : String)
    (rows : List Row) (pkColumn : Option String) (sampleSize : Nat)
    (pk : String)
    (hcols : st.columns ≠ [])
    (hsample : rows.take sampleSize ≠ [])
    (hpk : resolvePk st.columns pkColumn = .ok pk)
    (hfail : failedOf st.columns rows ≠ []) :
    import_csv st path (some rows) pkColumn sampleSize =
      ({ columns := st.columns,
         table? := some (commitGood st.columns (pkIndex st.columns pk) rows
           (st.table?.getD [])) },
       .error (.importFailed path ((failedOf st.columns rows).take 5)
         ((failedOf st.columns rows).length - 5)))
    ∧ ((failedOf st.columns rows).take 5).length ≤ 5 := by
  constructor
  · unfold import_csv
    have hs : (rows.take sampleSize).isEmpty = false :=
      by simpa [List.isEmpty_iff] using hsample
    have hc : st.columns.isEmpty = false := by simpa [List.isEmpty_iff] using hcols
    simp only [hs, Bool.false_eq_true, if_false, hc, hpk]
    rw [secondPass_eq]
    have hf : (([] : List (Row × String)) ++ failedOf st.columns rows).isEmpty
        = false := by simpa [List.isEmpty_iff] using hfail
    simp [hf]
    exact hfail
  · rw [List.length_take]
    exact Nat.min_le_left _ _

/-- Witness for C3: a CSV of two valid rows and one row with a non-numeric
value in the INTEGER column `id` raises the aggregate error for the path
while exactly the 2 valid rows are committed. -/
theorem c3_partial_failure_commit_witness :
    import_csv ⟨[("id", "INTEGER"), ("v", "TEXT")], some []⟩ "members.csv"
      (some [[("id", some "1"), ("v", some "a")],
             [("id", some "2"), ("v", some "b")],
             [("id", some "x"), ("v", some "c")]]) none 100 =
      (⟨[("id", "INTEGER"), ("v", "TEXT")],
        some [[.int 1, .text "a"], [.int 2, .text "b"]]⟩,
       .error (.importFailed "members.csv"
         [([("id", some "x"), ("v", some "c")],
           "invalid literal for int with base 10: x")] 0))
    ∧ [[SValue.int 1, SValue.text "a"], [SValue.int 2, SValue.text "b"]].length
        = 2 := by
  have h := c3_partial_failure_commit
    ⟨[("id", "INTEGER"), ("v", "TEXT")], some []⟩ "members.csv"
    [[("id", some "1"), ("v", some "a")],
     [("id", some "2"), ("v", some "b")],
     [("id", some "x"), ("v", some "c")]] none 100 "id"
    (by decide) (by decide) (by rfl) (by decide)
  exact ⟨h.1.trans (by rfl), rfl⟩

/-- Unfolding `getTable` over a cons cell. -/
theorem getTable_cons (e : String × List MRow) (rest : Db) (m : String) :
    getTable (e :: rest) m = if e.1 = m then some e.2 else getTable rest m := by
  by_cases he : e.1 = m
  · unfold getTable
    rw [List.find?_cons_of_pos _ (by simpa using he)]
    simp [he]
  · unfold getTable
    rw [List.find?_cons_of_neg _ (by simpa using he)]
    simp [he]

/-- Unfolding `tableExists` over a cons cell. -/
theorem tableExists_cons (e : String × List MRow) (rest : Db) (m : String) :
    tableExists (e :: rest) m = ((e.1 = m) || tableExists rest m) := by
  simp [tableExists]

/-- Unfolding `dropTable` over a cons cell. -/
theorem dropTable_cons (e : String × List MRow) (rest : Db) (x : String) :
    dropTable (e :: rest) x =
      if e.1 = x then dropTable rest x else e :: dropTable rest x := by
  simp only [dropTable, List.filter_cons]
  by_cases he : e.1 = x <;> simp [he]

/-- Unfolding `renameTable` over a cons cell. -/
theorem renameTable_cons (e : String × List MRow) (rest : Db)
    (old new : String) :
    renameTable (e :: rest) old new =
      (if e.1 = old then (new, e.2) else e) :: renameTable rest old new := by
  simp only [renameTable, List.map_cons]

/-- Unfolding `updateTable` over a cons cell. -/
theorem updateTable_cons (e : String × List MRow) (rest : Db) (n : String)
    (f : List MRow → List MRow) :
    updateTable (e :: rest) n f =
      (if e.1 = n then (e.1, f e.2) else e) :: updateTable rest n f := by
  simp only [updateTable, List.map_cons]

/-- Dropping one table leaves every other table unchanged. -/
theorem getTable_dropTable_ne (db : Db) {x y : String} (h : y ≠ x) :
    getTable (dropTable db x) y = getTable db y := by
  induction db with
  | nil => rfl
  | cons e rest ih =>
    rw [dropTable_cons, getTable_cons]
    by_cases he : e.1 = x
    · have hey : e.1 ≠ y := fun hh => h (hh ▸ he)
      rw [if_pos he, if_neg hey]
      exact ih
    · rw [if_neg he, getTable_cons]
      by_cases hy : e.1 = y
      · rw [if_pos hy, if_pos hy]
      · rw [if_neg hy, if_neg hy]
        exact ih

/-- A dropped table no longer exists. -/
theorem tableExists_dropTable_self (db : Db) (x : String) :
    tableExists (dropTable db x) x = false := by
  induction db with
  | nil => rfl
  | cons e rest ih =>
    rw [dropTable_cons]
    by_cases he : e.1 = x
    · rw [if_pos he]; exact ih
    · rw [if_neg he, tableExists_cons, ih]
      simp [he]

/-- After renaming, the new name holds what the old name held, provided no
table by the new name existed. -/
theorem getTable_renameTable (db : Db) {old new : String}
    (hex : tableExists db new = false) :
    getTable (renameTable db old new) new = getTable db old := by
  induction db with
  | nil => rfl
  | cons e rest ih =>
    rw [tableExists_cons] at hex
    simp only [Bool.or_eq_false_iff, decide_eq_false_iff_not] at hex
    rw [renameTable_cons, getTable_cons, getTable_cons]
    by_cases he : e.1 = old
    · rw [if_pos he, if_pos he]
      simp
    · rw [if_neg he, if_neg he, if_neg hex.1]
      exact ih hex.2

/-- After renaming away, no table by the old name remains. -/
theorem tableExists_renameTable_old (db : Db) {old new : String}
    (hne : old ≠ new) :
    tableExists (renameTable db old new) old = false := by
  induction db with
  | nil => rfl
  | cons e rest ih =>
    rw [renameTable_cons, tableExists_cons]
    by_cases he : e.1 = old
    · rw [if_pos he, ih]
      simp [Ne.symm hne]
    · rw [if_neg he, ih]
      simp [he]

/-- Appending a fresh table makes it retrievable when absent before. -/
theorem getTable_append_fresh (db : Db) {n : String} (t : List MRow)
    (hex : tableExists db n = false) :
    getTable (db ++ [(n, t)]) n = some t := by
  induction db with
  | nil => simp [getTable_cons, getTable]
  | cons e rest ih =>
    rw [tableExists_cons] at hex
    simp only [Bool.or_eq_false_iff, decide_eq_false_iff_not] at hex
    rw [List.cons_append, getTable_cons, if_neg hex.1]
    exact ih hex.2

/-- Appending a table does not affect other names. -/
theorem getTable_append_ne (db : Db) {n m : String} (t : List MRow)
    (h : m ≠ n) :
    getTable (db ++ [(n, t)]) m = getTable db m := by
  induction db with
  | nil => simp [getTable_cons, getTable, Ne.symm h]
  | cons e rest ih =>
    rw [List.cons_append, getTable_cons, getTable_cons]
    by_cases he : e.1 = m
    · rw [if_pos he, if_pos he]
    · rw [if_neg he, if_neg he]
      exact ih

/-- Updating a table rewrites its contents in place. -/
theorem getTable_updateTable_self (db : Db) (n : String)
    (f : List MRow → List MRow) :
    getTable (updateTable db n f) n = (getTable db n).map f := by
  induction db with
  | nil => rfl
  | cons e rest ih =>
    rw [updateTable_cons, getTable_cons, getTable_cons]
    by_cases he : e.1 = n
    · rw [if_pos he]
      simp [he]
    · rw [if_neg he, if_neg he, if_neg he]
      exact ih

/-- Updating a table leaves other names unchanged. -/
theorem getTable_updateTable_ne (db : Db) {n m : String}
    (f : List MRow → List MRow) (h : m ≠ n) :
    getTable (updateTable db n f) m = getTable db m := by
  induction db with
  | nil => rfl
  | cons e rest ih =>
    rw [updateTable_cons, getTable_cons, getTable_cons]
    by_cases he : e.1 = n
    · have hem : e.1 ≠ m := fun hh => h (hh ▸ he)
      rw [if_pos he]
      rw [show (((e.1, f e.2) : String × List MRow).1) = e.1 from rfl]
      rw [if_neg hem, if_neg hem]
      exact ih
    · rw [if_neg he]
      by_cases hm : e.1 = m
      · rw [if_pos hm, if_pos hm]
      · rw [if_neg hm, if_neg hm]
        exact ih

/-- Updating table contents preserves the set of table names. -/
theorem updateTable_names (db : Db) (n : String) (f : List MRow → List MRow) :
    (updateTable db n f).map (·.1) = db.map (·.1) := by
  induction db with
  | nil => rfl
  | cons e rest ih =>
    rw [updateTable_cons, List.map_cons, List.map_cons, ih]
    by_cases he : e.1 = n
    · rw [if_pos he]
    · rw [if_neg he]

/-- A retrievable table exists. -/
theorem tableExists_of_getTable (db : Db) {n : String} {t : List MRow}
    (h : getTable db n = some t) : tableExists db n = true := by
  induction db with
  | nil => simp [getTable] at h
  | cons e rest ih =>
    rw [getTable_cons] at h
    rw [tableExists_cons]
    by_cases he : e.1 = n
    · simp [he]
    · rw [if_neg he] at h
      simp [he, ih h]

/-- No string equals itself with `"_old"` appended. -/
theorem name_ne_name_old (s : String) : s ≠ s ++ "_old" := by
  intro h
  have hlen := congrArg String.length h
  rw [String.length_append] at hlen
  have h4 : ("_old" : String).length = 4 := rfl
  omega

/-- C1: importing into an existing table with `merge=False` renames it to
`<name>_old`, imports into a fresh empty table, emits the diff of the new
fresh import against the old snapshot, drops `<name>_old`; with `merge=True`
there is no rename and no diff, and the rows are insert-or-ignored into the
existing table, appending them. -/
theorem c1_merge_import_semantics (db : Db) (name : String)
    (rows oldT : List MRow) (hold : getTable db name = some oldT) :
    ((import_csv_merge db name rows false).2 =
        some (specDiff (insertIgnoreRows [] rows) oldT)
      ∧ getTable (import_csv_merge db name rows false).1 name =
          some (insertIgnoreRows [] rows)
      ∧ tableExists (import_csv_merge db name rows false).1 (name ++ "_old")
          = false)
    ∧ ((import_csv_merge db name rows true).2 = none
      ∧ getTable (import_csv_merge db name rows true).1 name =
          some (insertIgnoreRows oldT rows)
      ∧ (import_csv_merge db name rows true).1.map (·.1) = db.map (·.1)) := by
  have hex : tableExists db name = true := tableExists_of_getTable db hold
  have hne : name ≠ name ++ "_old" := name_ne_name_old name
  constructor
  · have hG1 : getTable (dropTable db (name ++ "_old")) name = some oldT := by
      rw [getTable_dropTable_ne db hne]; exact hold
    have hE1 : tableExists (dropTable db (name ++ "_old")) (name ++ "_old")
        = false := tableExists_dropTable_self db _
    have hG2 : getTable
        (renameTable (dropTable db (name ++ "_old")) name (name ++ "_old"))
        (name ++ "_old") = some oldT := by
      rw [getTable_renameTable _ hE1]; exact hG1
    have hE2 : tableExists
        (renameTable (dropTable db (name ++ "_old")) name (name ++ "_old"))
        name = false := tableExists_renameTable_old _ hne
    set db2 := renameTable (dropTable db (name ++ "_old")) name (name ++ "_old")
      with hdb2
    have hG3 : getTable (db2 ++ [(name, [])]) name = some [] :=
      getTable_append_fresh db2 [] hE2
    have hG3o : getTable (db2 ++ [(name, [])]) (name ++ "_old") = some oldT := by
      rw [getTable_append_ne db2 [] (Ne.symm hne)]; exact hG2
    have hG4 : getTable
        (updateTable (db2 ++ [(name, [])]) name (fun t => insertIgnoreRows t rows))
        name = some (insertIgnoreRows [] rows) := by
      rw [getTable_updateTable_self]; rw [hG3]; rfl
    have hG4o : getTable
        (updateTable (db2 ++ [(name, [])]) name (fun t => insertIgnoreRows t rows))
        (name ++ "_old") = some oldT := by
      rw [getTable_updateTable_ne _ _ (Ne.symm hne)]; exact hG3o
    set db4 := updateTable (db2 ++ [(name, [])]) name
      (fun t => insertIgnoreRows t rows) with hdb4
    have hres : import_csv_merge db name rows false =
        (dropTable db4 (name ++ "_old"),
         some (specDiff ((getTable db4 name).getD [])
           ((getTable db4 (name ++ "_old")).getD []))) := by
      unfold import_csv_merge
      rw [if_neg (by simp), if_pos hex]
    rw [hres]
    refine ⟨?_, ?_, ?_⟩
    · show some (specDiff ((getTable db4 name).getD [])
        ((getTable db4 (name ++ "_old")).getD [])) = _
      rw [hG4, hG4o]
      rfl
    · show getTable (dropTable db4 (name ++ "_old")) name = _
      rw [getTable_dropTable_ne db4 hne]
      exact hG4
    · show tableExists (dropTable db4 (name ++ "_old")) (name ++ "_old") = false
      exact tableExists_dropTable_self db4 _
  · have hres : import_csv_merge db name rows true =
        (updateTable db name (fun t => insertIgnoreRows t rows), none) := by
      simp only [import_csv_merge, if_true, hex]
    rw [hres]
    refine ⟨rfl, ?_, ?_⟩
    · show getTable (updateTable db name (fun t => insertIgnoreRows t rows))
        name = _
      rw [getTable_updateTable_self, hold]
      rfl
    · show (updateTable db name (fun t => insertIgnoreRows t rows)).map (·.1)
        = db.map (·.1)
      exact updateTable_names db name _

/-- Witness for C1 at a concrete database: table `t` holding keys 1,2 and
an import of keys 2,3. -/
theorem c1_merge_import_semantics_witness :
    (import_csv_merge [("t", [(1, "A"), (2, "B")])] "t" [(2, "B2"), (3, "C")]
        false).2 = some [(1, "deleted"), (2, "changed"), (3, "added")]
    ∧ getTable (import_csv_merge [("t", [(1, "A"), (2, "B")])] "t"
        [(2, "B2"), (3, "C")] true).1 "t" =
        some [(1, "A"), (2, "B"), (3, "C")] := by
  have h := c1_merge_import_semantics [("t", [(1, "A"), (2, "B")])] "t"
    [(2, "B2"), (3, "C")] [(1, "A"), (2, "B")] (by rfl)
  exact ⟨h.1.1.trans (by rfl), h.2.2.1.trans (by rfl)⟩

/-- The candidate string of a member is never empty (it contains the
separating space). -/
theorem candOf_length_pos (m : MemberData) : 0 < (candOf m).length := by
  have h1 : (candOf m).length = (m.first_name ++ " " ++ m.last_name).length := by
    show ((m.first_name ++ " " ++ m.last_name).toList.map Char.toLower).length = _
    rw [List.length_map]
    rfl
  rw [h1, String.length_append, String.length_append]
  have h2 : (" " : String).length = 1 := rfl
  omega

/-- Cross-multiplied ratio comparison is reflexive. -/
theorem fuzzRatioLe_refl (t c : String) : fuzzRatioLe t c c := le_refl _

/-- Cross-multiplied ratio comparison is transitive when the middle
candidate is non-empty. -/
theorem fuzzRatioLe_trans {t c1 c2 c3 : String}
    (h2 : 0 < c2.length + t.length)
    (h12 : fuzzRatioLe t c1 c2) (h23 : fuzzRatioLe t c2 c3) :
    fuzzRatioLe t c1 c3 := by
  unfold fuzzRatioLe at *
  set M1 := lcsLen c1.toList t.toList
  set M2 := lcsLen c2.toList t.toList
  set M3 := lcsLen c3.toList t.toList
  have key : M1 * (c3.length + t.length) * (c2.length + t.length) ≤
      M3 * (c1.length + t.length) * (c2.length + t.length) := by
    calc M1 * (c3.length + t.length) * (c2.length + t.length)
        = (M1 * (c2.length + t.length)) * (c3.length + t.length) := by ring
      _ ≤ (M2 * (c1.length + t.length)) * (c3.length + t.length) :=
          Nat.mul_le_mul_right _ h12
      _ = (M2 * (c3.length + t.length)) * (c1.length + t.length) := by ring
      _ ≤ (M3 * (c2.length + t.length)) * (c1.length + t.length) :=
          Nat.mul_le_mul_right _ h23
      _ = M3 * (c1.length + t.length) * (c2.length + t.length) := by ring
  exact Nat.le_of_mul_le_mul_right key h2

/-- A failed challenge means the challenger's ratio is at most the
current best's. -/
theorem fuzzRatioLe_of_not_better {t : String} {chal cur : MemberData × String}
    (h : fuzzBetter t chal cur = false) : fuzzRatioLe t chal.2 cur.2 := by
  unfold fuzzBetter at h
  unfold fuzzRatioLe
  simpa [Nat.not_lt] using h

/-- A successful challenge means the current best's ratio is at most the
challenger's. -/
theorem fuzzRatioLe_of_better {t : String} {chal cur : MemberData × String}
    (h : fuzzBetter t chal cur = true) : fuzzRatioLe t cur.2 chal.2 := by
  unfold fuzzBetter at h
  unfold fuzzRatioLe
  simp only [decide_eq_true_eq] at h
  exact Nat.le_of_lt h

/-- The scan result is one of the scanned candidates. -/
theorem pickBest_mem (t : String) (c : MemberData × String)
    (cs : List (MemberData × String)) : pickBest t c cs ∈ c :: cs := by
  induction cs generalizing c with
  | nil => simp [pickBest]
  | cons d ds ih =>
    unfold pickBest
    have h := ih (if fuzzBetter t d c then d else c)
    rcases List.mem_cons.mp h with h1 | h1
    · rw [h1]
      by_cases hb : fuzzBetter t d c = true
      · simp [hb]
      · simp only [Bool.not_eq_true] at hb
        simp [hb]
    · exact List.mem_cons_of_mem _ (List.mem_cons_of_mem _ h1)

/-- The scan result has maximal ratio among the scanned candidates. -/
theorem pickBest_max (t : String) (c : MemberData × String)
    (cs : List (MemberData × String))
    (hpos : ∀ e ∈ c :: cs, 0 < e.2.length + t.length) :
    ∀ e ∈ c :: cs, fuzzRatioLe t e.2 (pickBest t c cs).2 := by
  induction cs generalizing c with
  | nil =>
    intro e he
    rw [List.mem_singleton] at he
    rw [he]
    exact fuzzRatioLe_refl _ _
  | cons d ds ih =>
    intro e he
    have hposc : 0 < c.2.length + t.length := hpos c (List.mem_cons_self c _)
    have hposd : 0 < d.2.length + t.length :=
      hpos d (List.mem_cons_of_mem _ (List.mem_cons_self d _))
    have hpos2 : ∀ x ∈ (if fuzzBetter t d c then d else c) :: ds,
        0 < x.2.length + t.length := by
      intro x hx
      rcases List.mem_cons.mp hx with h1 | h1
      · by_cases hb : fuzzBetter t d c = true
        · rw [h1]; simp only [hb, if_true]; exact hposd
        · simp only [Bool.not_eq_true] at hb
          rw [h1]; simp only [hb, Bool.false_eq_true, if_false]; exact hposc
      · exact hpos x (List.mem_cons_of_mem _ (List.mem_cons_of_mem _ h1))
    have hnextPos : 0 < (if fuzzBetter t d c then d else c).2.length + t.length :=
      hpos2 _ (List.mem_cons_self _ _)
    have hbest := ih (if fuzzBetter t d c then d else c) hpos2
    have hstep : fuzzRatioLe t e.2 (if fuzzBetter t d c then d else c).2 ∨
        e ∈ ds := by
      rcases List.mem_cons.mp he with h1 | h1
      · left
        rw [h1]
        by_cases hb : fuzzBetter t d c = true
        · simp only [hb, if_true]
          exact fuzzRatioLe_of_better hb
        · simp only [Bool.not_eq_true] at hb
          simp only [hb, Bool.false_eq_true, if_false]
          exact fuzzRatioLe_refl _ _
      · rcases List.mem_cons.mp h1 with h2 | h2
        · left
          rw [h2]
          by_cases hb : fuzzBetter t d c = true
          · simp only [hb, if_true]
            exact fuzzRatioLe_refl _ _
          · simp only [Bool.not_eq_true] at hb
            simp only [hb, Bool.false_eq_true, if_false]
            exact fuzzRatioLe_of_not_better hb
        · right; exact h2
    unfold pickBest
    rcases hstep with h1 | h1
    · exact fuzzRatioLe_trans hnextPos h1
        (hbest _ (List.mem_cons_self _ _))
    · exact hbest e (List.mem_cons_of_mem _ h1)

/-- Characterization of the fuzzy matcher: a returned pair is a stored
member whose candidate qualifies at the 0.7 cutoff and has maximal ratio
among all qualifying candidates; no-match happens exactly when no stored
candidate qualifies. -/
theorem get_fuzz_name_spec (db : List MemberData) (input : String) :
    (∀ f l, get_fuzz_name db input = some (f, l) →
      ∃ m ∈ db, m.first_name = f ∧ m.last_name = l ∧
        fuzzQualifies (strLower input) (candOf m) ∧
        ∀ m2 ∈ db, fuzzQualifies (strLower input) (candOf m2) →
          fuzzRatioLe (strLower input) (candOf m2) (candOf m))
    ∧ (get_fuzz_name db input = none ↔
        ∀ m ∈ db, ¬ fuzzQualifies (strLower input) (candOf m)) := by
  constructor
  · intro f l hres
    simp only [get_fuzz_name] at hres
    rcases hq : List.filter (fun c => decide (fuzzQualifies (strLower input) c.2))
        (List.map (fun m => (m, candOf m)) db) with _ | ⟨c, cs⟩
    · rw [hq] at hres
      simp at hres
    · rw [hq] at hres
      simp only [Option.some.injEq, Prod.mk.injEq] at hres
      have hmem : pickBest (strLower input) c cs ∈ c :: cs := pickBest_mem _ c cs
      rw [← hq] at hmem
      obtain ⟨hmap, hqb⟩ := List.mem_filter.mp hmem
      obtain ⟨m, hmdb, hmeq⟩ := List.mem_map.mp hmap
      refine ⟨m, hmdb, ?_, ?_, ?_, ?_⟩
      · rw [← hres.1, ← hmeq]
      · rw [← hres.2, ← hmeq]
      · have hb2 : (pickBest (strLower input) c cs).2 = candOf m := by
          rw [← hmeq]
        rw [hb2] at hqb
        simpa using hqb
      · intro m2 hm2 hq2
        have hin : (m2, candOf m2) ∈ List.filter
            (fun c => decide (fuzzQualifies (strLower input) c.2))
            (List.map (fun m => (m, candOf m)) db) :=
          List.mem_filter.mpr ⟨List.mem_map_of_mem _ hm2, by simpa using hq2⟩
        rw [hq] at hin
        have hposAll : ∀ e ∈ c :: cs, 0 < e.2.length + (strLower input).length := by
          intro e hce
          rw [← hq] at hce
          obtain ⟨hmap3, _⟩ := List.mem_filter.mp hce
          obtain ⟨m3, _, hm3⟩ := List.mem_map.mp hmap3
          have he2 : e.2 = candOf m3 := by rw [← hm3]
          rw [he2]
          have := candOf_length_pos m3
          omega
        have hmax := pickBest_max (strLower input) c cs hposAll (m2, candOf m2) hin
        have hb2 : (pickBest (strLower input) c cs).2 = candOf m := by
          rw [← hmeq]
        rw [hb2] at hmax
        exact hmax
  · simp only [get_fuzz_name]
    rcases hq : List.filter (fun c => decide (fuzzQualifies (strLower input) c.2))
        (List.map (fun m => (m, candOf m)) db) with _ | ⟨c, cs⟩
    · rw [hq]
      constructor
      · intro _ m hm hq2
        have hnone := List.filter_eq_nil_iff.mp hq (m, candOf m)
          (List.mem_map_of_mem _ hm)
        exact hnone (by simpa using hq2)
      · intro _
        rfl
    · rw [hq]
      constructor
      · intro h
        exact absurd h (by simp)
      · intro hall
        exfalso
        have hc : c ∈ List.filter
            (fun x => decide (fuzzQualifies (strLower input) x.2))
            (List.map (fun m => (m, candOf m)) db) := by
          rw [hq]
          exact List.mem_cons_self c cs
        obtain ⟨hmap, hqb⟩ := List.mem_filter.mp hc
        obtain ⟨m, hm, hmeq⟩ := List.mem_map.mp hmap
        have hc2 : c.2 = candOf m := by rw [← hmeq]
        rw [hc2] at hqb
        exact hall m hm (by simpa using hqb)

/-- C2: when every cascade stage misses on a two-or-more-part name and
strict mode is off, resolution falls back to fuzzy matching: it returns
exactly the fuzzy matcher's answer, which is the stored member whose
lower-cased "first last" candidate has maximal similarity ratio to the
lower-cased input among those reaching the 0.7 cutoff, or no-match when no
candidate qualifies. -/
theorem c2_fuzzy_fallback (db : List MemberData) (fullName : String)
    (hparts : 2 ≤ (pySplit fullName).length)
    (hmiss : get_mojo_name db fullName false = .ok none) :
    resolve db fullName false = .ok (get_fuzz_name db fullName)
    ∧ (∀ f l, get_fuzz_name db fullName = some (f, l) →
      ∃ m ∈ db, m.first_name = f ∧ m.last_name = l ∧
        fuzzQualifies (strLower fullName) (candOf m) ∧
        ∀ m2 ∈ db, fuzzQualifies (strLower fullName) (candOf m2) →
          fuzzRatioLe (strLower fullName) (candOf m2) (candOf m))
    ∧ (get_fuzz_name db fullName = none ↔
        ∀ m ∈ db, ¬ fuzzQualifies (strLower fullName) (candOf m)) := by
  refine ⟨?_, (get_fuzz_name_spec db fullName).1,
    (get_fuzz_name_spec db fullName).2⟩
  unfold resolve
  rw [if_neg (by omega), hmiss]
  rfl

/-- Witness for C2: with stored member ("Jo","Do"), the input "Xo Do"
misses every cascade stage and fuzzy-resolves to ("Jo","Do"). -/
theorem c2_fuzzy_fallback_witness :
    resolve [⟨1, "Mr", "Jo", "Do", 1, "u"⟩] "Xo Do" false =
      .ok (some ("Jo", "Do")) := by
  have h := c2_fuzzy_fallback [⟨1, "Mr", "Jo", "Do", 1, "u"⟩] "Xo Do"
    (by decide) (by rfl)
  exact h.1.trans (by rfl)

/-- C7: the diff does report the claim's example exactly (deleted key 1,
changed key 2, added key 3, ordered by key), but on a pair of rows whose
only difference is a NULL against a non-NULL value the changed-row
predicate evaluates to SQL NULL under three-valued logic and the row is
not reported at all — the code's comparison is not null-safe for the
null-versus-non-null case, contradicting both the claim and the code's own
"NULL-safe comparisons" comment. -/
theorem c7_diff_null_divergence :
    generate_sql_diff [⟨"c1", false⟩, ⟨"c2", false⟩]
      [[.int 2, .text "B*"], [.int 3, .text "C"]]
      [[.int 1, .text "A"], [.int 2, .text "B"]] =
      .ok [⟨.int 1, "deleted", [("c1", .int 1), ("c2", .text "A")]⟩,
           ⟨.int 2, "changed", [("c1", .int 2), ("c2", .text "B*")]⟩,
           ⟨.int 3, "added", [("c1", .int 3), ("c2", .text "C")]⟩]
    ∧ generate_sql_diff [⟨"c1", false⟩, ⟨"c2", false⟩]
        [[.int 1, .null]] [[.int 1, .text "A"]] = .ok [] := by
  constructor <;> rfl

/-- C8 counterexample: on a 7-column table the single diff entry's preview
holds the key plus 5 more columns — 6 in all, more than the claimed bound
of the key plus at most 4. -/
theorem c8_preview_counterexample :
    generate_sql_diff [⟨"c0", false⟩, ⟨"c1", false⟩, ⟨"c2", false⟩,
        ⟨"c3", false⟩, ⟨"c4", false⟩, ⟨"c5", false⟩, ⟨"c6", false⟩]
      [[.int 0, .int 1, .int 2, .int 3, .int 4, .int 5, .int 6]] [] =
      .ok [⟨.int 0, "added",
        [("c0", .int 0), ("c1", .int 1), ("c2", .int 2), ("c3", .int 3),
         ("c4", .int 4), ("c5", .int 5)]⟩]
    ∧ 1 + 4 < [("c0", SValue.int 0), ("c1", SValue.int 1), ("c2", SValue.int 2),
        ("c3", SValue.int 3), ("c4", SValue.int 4),
        ("c5", SValue.int 5)].length := by
  constructor
  · rfl
  · decide

/-- Membership is preserved by sorted insertion. -/
theorem mem_insertSorted (le : DiffEntry → DiffEntry → Bool) (x e : DiffEntry)
    (l : List DiffEntry) :
    e ∈ insertSorted le x l ↔ e = x ∨ e ∈ l := by
  induction l with
  | nil => simp [insertSorted]
  | cons y ys ih =>
    unfold insertSorted
    by_cases hle : le x y = true
    · simp [hle]
    · simp only [Bool.not_eq_true] at hle
      simp only [hle, Bool.false_eq_true, if_false, List.mem_cons, ih]
      tauto

/-- Membership is preserved by the insertion sort. -/
theorem mem_sortBy (le : DiffEntry → DiffEntry → Bool) (e : DiffEntry)
    (l : List DiffEntry) :
    e ∈ sortBy le l ↔ e ∈ l := by
  induction l with
  | nil => simp [sortBy]
  | cons y ys ih =>
    show e ∈ insertSorted le y (sortBy le ys) ↔ _
    rw [mem_insertSorted, ih]
    simp

/-- C8 (amended): every diff entry's preview lists the key column first
followed by the first at most 5 non-key columns — never more than 6
columns, and never the entire row of a table wider than that bound. -/
theorem c8_preview_bound (cols : List ColInfo)
    (newTbl oldTbl : List (List SValue)) (r : List DiffEntry) (e : DiffEntry)
    (hres : generate_sql_diff cols newTbl oldTbl = .ok r) (he : e ∈ r) :
    e.preview.map (·.1) =
      detectKey cols ::
        (((cols.map (·.name)).filter (· ≠ detectKey cols)).take 5)
    ∧ e.preview.length ≤ 6
    ∧ (6 < cols.length → e.preview.length < cols.length) := by
  by_cases hempty : cols.isEmpty = true
  · unfold generate_sql_diff at hres
    rw [if_pos hempty] at hres
    exact absurd hres (by simp)
  · unfold generate_sql_diff at hres
    rw [if_neg hempty] at hres
    simp only [Except.ok.injEq] at hres
    rw [← hres] at he
    rw [mem_sortBy] at he
    have hkey : ∃ row : List SValue, e =
        { k := row.getD ((cols.map (·.name)).indexOf (detectKey cols)) .null,
          diffType := e.diffType,
          preview := (detectKey cols ::
            (((cols.map (·.name)).filter (· ≠ detectKey cols)).take 5)).map
            (fun c => (c, row.getD ((cols.map (·.name)).indexOf c) .null)) } := by
      rcases List.mem_append.mp he with hin | hin
      · rcases List.mem_append.mp hin with hin2 | hin2
        · obtain ⟨row, _, hrow⟩ := List.mem_map.mp hin2
          exact ⟨row, by rw [← hrow]⟩
        · obtain ⟨row, _, hrow⟩ := List.mem_map.mp hin2
          exact ⟨row, by rw [← hrow]⟩
      · obtain ⟨row, hrowIn, hrow⟩ := List.mem_flatMap.mp hin
        obtain ⟨o, _, ho⟩ := List.mem_map.mp hrow
        exact ⟨row, by rw [← ho]⟩
    obtain ⟨row, hrow⟩ := hkey
    have hprev : e.preview = (detectKey cols ::
        (((cols.map (·.name)).filter (· ≠ detectKey cols)).take 5)).map
        (fun c => (c, row.getD ((cols.map (·.name)).indexOf c) .null)) := by
      rw [hrow]
    refine ⟨?_, ?_, ?_⟩
    · rw [hprev, List.map_map]
      have hid : ∀ (l : List String) (f : String → SValue),
          List.map ((fun x : String × SValue => x.1) ∘ fun c => (c, f c)) l
            = l := by
        intro l f
        induction l with
        | nil => rfl
        | cons a as ih => simp only [List.map_cons, ih, Function.comp]
      exact hid _ _
    · rw [hprev, List.length_map, List.length_cons, List.length_take]
      have := Nat.min_le_left 5
        (((cols.map (·.name)).filter (· ≠ detectKey cols)).length)
      omega
    · intro hwide
      rw [hprev, List.length_map, List.length_cons, List.length_take]
      have := Nat.min_le_left 5
        (((cols.map (·.name)).filter (· ≠ detectKey cols)).length)
      omega

/-- Witness for C8 (amended) on a one-column table: the single added
entry's preview is exactly the key column. -/
theorem c8_preview_bound_witness :
    (⟨.int 1, "added", [("a", SValue.int 1)]⟩ : DiffEntry).preview.map (·.1) =
      detectKey [⟨"a", false⟩] ::
        ((([(⟨"a", false⟩ : ColInfo)].map (·.name)).filter
          (· ≠ detectKey [⟨"a", false⟩])).take 5)
    ∧ (⟨.int 1, "added", [("a", SValue.int 1)]⟩ : DiffEntry).preview.length
        ≤ 6 := by
  have h := c8_preview_bound [⟨"a", false⟩] [[.int 1]] []
    [⟨.int 1, "added", [("a", .int 1)]⟩] ⟨.int 1, "added", [("a", .int 1)]⟩
    (by rfl) (by simp)
  exact ⟨h.1, h.2.1⟩

end Memberjojo
